import Mathlib

/-!
Verification of the assemblyline yara service (yara validator and updater).

This file shallowly embeds the Python sources `yara_/yara_validator.py` and
`yara_/yara_updater.py`.  Rule files are modelled as lists of lines, exactly as
produced by `readlines()` (each line keeps its trailing newline).  Python string
operations that the code relies on (`str.replace`, `str.split`, `str.strip`,
`re.match` against the two fixed regular expressions, `in` substring tests) are
re-implemented structurally over `List Char` so that every definition is
executable and kernel-reducible.  Fallible code (exceptions) is modelled with
`Except String`; writing the repaired file back to disk corresponds to an
`Except.ok` result, so an `Except.error` result means the file on disk is left
untouched.
-/

/-- Python `pre in s` would be `strContains s pre`; this is the char-list core:
does `sub` occur as a contiguous sublist of `l`? (Matches Python substring
semantics, including the empty pattern matching everywhere.) -/
def listContains (sub : List Char) : List Char → Bool
  | [] => sub.isEmpty
  | c :: cs => sub.isPrefixOf (c :: cs) || listContains sub cs

/-- Python substring test `sub in s`. -/
def strContains (s sub : String) : Bool :=
  listContains sub.toList s.toList

/-- Python `s.startswith(pre)`. -/
def py_startswith (s pre : String) : Bool :=
  pre.toList.isPrefixOf s.toList

/-- Python whitespace (the set stripped by `str.strip()`). -/
def isPySpace (c : Char) : Bool :=
  c = ' ' || c = Char.ofNat 9 || c = Char.ofNat 10 || c = Char.ofNat 13 ||
    c = Char.ofNat 11 || c = Char.ofNat 12

/-- Python `s.strip()`: remove leading and trailing whitespace. -/
def py_strip (s : String) : String :=
  String.mk (((s.toList.dropWhile isPySpace).reverse.dropWhile isPySpace).reverse)

/-- Char-list worker for Python `str.replace` (all non-overlapping occurrences,
left to right).  The `fuel` argument is the length of the remaining input; each
step consumes at least one character, so `fuel = cs.length` is always enough,
and the fuel pattern keeps the recursion structural (kernel-reducible). -/
def py_replace_aux (sub repl : List Char) : Nat → List Char → List Char
  | _, [] => []
  | 0, cs => cs
  | fuel + 1, c :: cs =>
    if sub.isPrefixOf (c :: cs) then
      repl ++ py_replace_aux sub repl fuel (List.drop (sub.length - 1) cs)
    else
      c :: py_replace_aux sub repl fuel cs

/-- Python `s.replace(sub, repl)` for a non-empty pattern `sub` (the only way
the source calls it). -/
def py_replace (s sub repl : String) : String :=
  String.mk (py_replace_aux sub.toList repl.toList s.toList.length s.toList)

/-- Spec-side definition: replace only the FIRST occurrence of `sub` in `s`
(the repair behaviour the specification describes for duplicate rule names). -/
def replace_first_aux (sub repl : List Char) : List Char → List Char
  | [] => []
  | c :: cs =>
    if sub.isPrefixOf (c :: cs) then
      repl ++ List.drop (sub.length - 1) cs
    else
      c :: replace_first_aux sub repl cs

/-- Spec-side definition: Python-like replacement of only the first occurrence. -/
def replace_first (s sub repl : String) : String :=
  String.mk (replace_first_aux sub.toList repl.toList s.toList)

/-- Part of `s` after the first occurrence of `sep`, i.e. Python
`s.split(sep, 1)[1]`; `none` models the `IndexError` when `sep` is absent. -/
def py_split_first_aux (sep : List Char) : List Char → Option (List Char)
  | [] => none
  | c :: cs =>
    if sep.isPrefixOf (c :: cs) then some ((c :: cs).drop sep.length)
    else py_split_first_aux sep cs

/-- Python `s.split(sep, 1)[1]` as an `Option`. -/
def py_split_first (s sep : String) : Option String :=
  (py_split_first_aux sep.toList s.toList).map String.mk

/-- Char-list worker for Python `s.split(sep)` with a non-empty separator.
`fuel` is the length of the remaining input (always sufficient; keeps the
recursion structural). -/
def py_split_aux (sep : List Char) : Nat → List Char → List Char → List (List Char)
  | _, acc, [] => [acc.reverse]
  | 0, acc, cs => [acc.reverse ++ cs]
  | fuel + 1, acc, c :: cs =>
    if sep.isPrefixOf (c :: cs) then
      acc.reverse :: py_split_aux sep fuel [] (List.drop (sep.length - 1) cs)
    else
      py_split_aux sep fuel (c :: acc) cs

/-- Python `s.split(sep)` for a non-empty separator. -/
def py_split (s sep : String) : List String :=
  (py_split_aux sep.toList s.toList.length [] s.toList).map String.mk

/-- Python `int(s)` restricted to the plain decimal numerals yara emits in its
error messages (surrounding whitespace tolerated, as `int` does). -/
def py_int (s : String) : Option Nat :=
  let cs := (py_strip s).toList
  if cs ≠ [] && cs.all Char.isDigit then
    some (cs.foldl (fun n c => n * 10 + (c.toNat - 48)) 0)
  else
    none

/-!
### `YaraValidator` (yara_/yara_validator.py)
-/

/-- The compiled pattern `self.rulestart = ^(?:global )?(?:private )?(?:private )?rule `
used with `re.match` (anchored at the start of the line).  The optional groups
are greedy but never need backtracking here, so sequential stripping is exact. -/
def isRuleStart (line : String) : Bool :=
  let cs := line.toList
  let cs1 := if "global ".toList.isPrefixOf cs then cs.drop 7 else cs
  let cs2 := if "private ".toList.isPrefixOf cs1 then cs1.drop 8 else cs1
  let cs3 := if "private ".toList.isPrefixOf cs2 then cs2.drop 8 else cs2
  "rule ".toList.isPrefixOf cs3

/-- Character class `[^{^:]` of the pattern `self.rulename = rule ([^{^:]+)`. -/
def ruleNameChar (c : Char) : Bool :=
  !(c = Char.ofNat 123 || c = Char.ofNat 94 || c = Char.ofNat 58)

/-- `re.search` worker for the pattern `rule ([^{^:]+)`: find the leftmost
position where `rule ` is followed by at least one `[^{^:]` character and
return the greedy capture. -/
def ruleNameSearchAux : List Char → Option (List Char)
  | [] => none
  | c :: cs =>
    if "rule ".toList.isPrefixOf (c :: cs) then
      let cap := ((c :: cs).drop 5).takeWhile ruleNameChar
      if cap.isEmpty then ruleNameSearchAux cs else some cap
    else
      ruleNameSearchAux cs

/-- `re.search(self.rulename, line).group(1).strip()`; `none` models the
`AttributeError` raised when the search fails. -/
def ruleNameSearch (line : String) : Option String :=
  (ruleNameSearchAux line.toList).map (fun cs => py_strip (String.mk cs))

/-- The first backward loop of `clean`: scan from index `k` down to `0` for a
line matching `rulestart`; `none` models hitting `find_start == -1` and raising
"failed to find invalid rule start". -/
def findStartIdx (lines : List String) : Nat → Option Nat
  | 0 => if isRuleStart (lines.getD 0 "") then some 0 else none
  | k + 1 =>
    if isRuleStart (lines.getD (k + 1) "") then some (k + 1)
    else findStartIdx lines k

/-- Worker for the second (forward) loop of `clean`: from index `k` upward,
stop at the first line matching `rulestart`, or at the last line of the file
(`find_end == len(f_lines) - 1`), whichever comes first.  `left` is a
structural countdown initialised to `lines.length - k` (always sufficient). -/
def findEndIdxAux (lines : List String) : Nat → Nat → Nat
  | 0, _ => lines.length - 1
  | left + 1, k =>
    if k + 1 < lines.length then
      if isRuleStart (lines.getD k "") then k
      else findEndIdxAux lines left (k + 1)
    else
      lines.length - 1

/-- The index at which the forward loop of `clean` stops. -/
def findEndIdx (lines : List String) (k : Nat) : Nat :=
  findEndIdxAux lines (lines.length - k) k

/-- `YaraValidator.clean` as a pure function on the list of lines of the rule
file.  `eline` is yara's 1-based error line; `invalid_rule_name` is non-empty
exactly for duplicated-identifier errors.  An `Except.ok (out, name)` result
models a successful repair after which `out` is written back to disk and
`name` is returned; an `Except.error` models a raised exception, in which case
the file on disk is never rewritten.  Python raises on `eline = 0`
(`f_lines[-1]` negative indexing is never reachable from yara error lines, so
that case is outside the modelled domain and mapped to an error). -/
def clean (lines : List String) (eline : Nat) (message invalid_rule_name : String) :
    Except String (List String × String) :=
  if eline = 0 then .error "unmodelled: nonpositive error line"
  else if invalid_rule_name ≠ "" then
    if eline - 1 < lines.length then
      .ok (lines.set (eline - 1)
            (py_replace (lines.getD (eline - 1) "") invalid_rule_name
              (invalid_rule_name ++ "_1")),
          invalid_rule_name)
    else .error "IndexError"
  else if eline - 1 < lines.length then
    match findStartIdx lines (eline - 1) with
    | none =>
      .error ("Yara Validator failed to find invalid rule start. Yara Error: "
        ++ message ++ " Line: " ++ Nat.repr eline)
    | some find_start =>
      match ruleNameSearch (lines.getD find_start "") with
      | none => .error "AttributeError"
      | some nm =>
        if findEndIdx lines (eline - 1) = lines.length - 1 then
          .ok (lines.take find_start, nm)
        else
          .ok (lines.take find_start ++ lines.drop (findEndIdx lines (eline - 1)), nm)
  else .error "IndexError"

/-- `int(error.split('):', 1)[0].split("(", -1)[1])` of `validate_rules`:
extract the 1-based error line from a `yara.SyntaxError` message. -/
def parse_eline (error : String) : Option Nat :=
  match (py_split error "):").headD error |> (fun before => (py_split before "(").get? 1) with
  | none => none
  | some s => py_int s

/-- The `except` branch of `YaraValidator.validate_rules` for one caught
error: a message that does not start with `yara.SyntaxError` is re-raised
unchanged (no repair); otherwise the line, message and (for duplicated
identifiers) rule name are parsed out and `clean` runs one repair step.
`Except.error` models the exception reaching the caller of `validate_rules`. -/
def handle_error (lines : List String) (error : String) : Except String (List String) :=
  if py_startswith error "yara.SyntaxError" then
    match parse_eline error, py_split_first error "): " with
    | some e_line, some e_message =>
      if strContains error "duplicated identifier" then
        match (py_split e_message "\"").get? 1 with
        | some nm => (clean lines e_line e_message nm).map Prod.fst
        | none => .error "IndexError"
      else
        (clean lines e_line e_message "").map Prod.fst
    | _, _ => .error "failed to parse yara error"
  else
    .error error

/-- First line index `j ≥ k` with `isRuleStart (lines[j])`, `none` if there is
no such line.  This is the declarative "next rule-declaration start at or after
the error line" of the specification.  `left` is a structural countdown,
initialised to `lines.length - k`. -/
def firstRuleStartFromAux (lines : List String) : Nat → Nat → Option Nat
  | 0, _ => none
  | left + 1, k =>
    if k < lines.length then
      if isRuleStart (lines.getD k "") then some k
      else firstRuleStartFromAux lines left (k + 1)
    else none

/-- Declarative "next rule-declaration start at or after line `k`". -/
def firstRuleStartFrom (lines : List String) (k : Nat) : Option Nat :=
  firstRuleStartFromAux lines (lines.length - k) k

/-- Claim-side removal: delete exactly `[start, end)` where `end` is the next
rule-declaration start at or after the error line (exclusive), or end-of-file
(inclusive) when there is none.  This follows the claim's words. -/
def claim_removal (lines : List String) (error_line s : Nat) : List String :=
  match firstRuleStartFrom lines error_line with
  | some j => lines.take s ++ lines.drop j
  | none => lines.take s

/-- What the code actually deletes: as `claim_removal`, except that whenever
the forward scan reaches the last line of the file — in particular when the
next rule-declaration start IS the last line — the deletion extends through
end-of-file inclusive, so that final rule-start line is deleted as well. -/
def amended_removal (lines : List String) (error_line s : Nat) : List String :=
  match firstRuleStartFrom lines error_line with
  | some j =>
    if j = lines.length - 1 then lines.take s
    else lines.take s ++ lines.drop j
  | none => lines.take s

/-!
### `yara_updater.py`
-/

/-- The `cat_map` table of `guess_category`, in Python dict insertion order. -/
def cat_map : List (String × List String) :=
  [("technique", ["antidebug", "antivm", "capabilities"]),
   ("info", ["info", "deprecated", "crypto", "packer"]),
   ("tool", ["webshell"]),
   ("exploit", ["cve", "exploit"]),
   ("malware", ["malware", "maldoc", "implant"])]

/-- The nested `for cat, items / for item` loops of `guess_category`: return
the category of the first keyword (scanning categories in table order, and
keywords in list order inside a category) that is a substring of the name. -/
def guessCatAux (rule_file_name : String) : List (String × List String) → Option String
  | [] => none
  | (cat, items) :: rest =>
    if items.any (fun item => strContains rule_file_name item) then some cat
    else guessCatAux rule_file_name rest

/-- `guess_category(rule_file_name)`. -/
def guess_category (rule_file_name : String) : Option String :=
  guessCatAux rule_file_name cat_map

/-- Flatten a category table into an ordered keyword → category list. -/
def flattenTable : List (String × List String) → List (String × String)
  | [] => []
  | (cat, items) :: rest => items.map (fun i => (i, cat)) ++ flattenTable rest

/-- Spec-side fixed keyword → category table, written out in the order the
specification describes (technique, info, tool, exploit, malware). -/
def spec_keyword_table : List (String × String) :=
  [("antidebug", "technique"), ("antivm", "technique"), ("capabilities", "technique"),
   ("info", "info"), ("deprecated", "info"), ("crypto", "info"), ("packer", "info"),
   ("webshell", "tool"),
   ("cve", "exploit"), ("exploit", "exploit"),
   ("malware", "malware"), ("maldoc", "malware"), ("implant", "malware")]

/-- Spec-side first-match search: walk an ordered keyword → category table
and return the category of the first keyword that is a substring of the name. -/
def spec_first_match (name : String) : List (String × String) → Option String
  | [] => none
  | (kw, cat) :: rest =>
    if strContains name kw then some cat else spec_first_match name rest

/-- Spec-side category inference: category of the first keyword in the fixed
table order that is a substring of the file name, `none` when none match. -/
def spec_guess_category (rule_file_name : String) : Option String :=
  spec_first_match rule_file_name spec_keyword_table

/-- A parsed rule as far as the category-stamping code looks at it: plyara
signature dicts, with `metadata` present or absent, holding an ordered list of
single-pair entries. -/
structure Sig where
  rule_name : String
  metadata : Option (List (String × String))
deriving DecidableEq

/-- Body of the `for s in signatures` loop under `if guessed_category`:
`if 'metadata' not in s: s['metadata'] = []` then
`s['metadata'].append({'category': guessed_category})`. -/
def add_category (guessed : String) (s : Sig) : Sig :=
  { rule_name := s.rule_name,
    metadata := some (s.metadata.getD [] ++ [("category", guessed)]) }

/-- The `# Guess category` block of `yara_update`: when a category was
guessed, stamp every signature parsed from the file; otherwise leave the
signatures untouched. -/
def apply_guessed_category (guessed : Option String) (sigs : List Sig) : List Sig :=
  match guessed with
  | none => sigs
  | some c => sigs.map (add_category c)

/-!
#### Include resolution (`replace_include`)

The filesystem is modelled as a finite association list from (normalised)
paths to file contents (`readlines()` lists); `os.path` operations are
modelled for POSIX paths.
-/

/-- `os.path.join(a, b)` for a single right operand (POSIX). -/
def pjoin (a b : String) : String :=
  if py_startswith b "/" then b
  else if a = "" || a.toList.getLast? = some (Char.ofNat 47) then a ++ b
  else a ++ "/" ++ b

/-- The component-processing loop of `posixpath.normpath`. -/
def normCompsAux (hasRoot : Bool) : List String → List String → List String
  | acc, [] => acc.reverse
  | acc, c :: cs =>
    if c = "" || c = "." then normCompsAux hasRoot acc cs
    else if c ≠ ".." then normCompsAux hasRoot (c :: acc) cs
    else
      match acc with
      | [] => if hasRoot then normCompsAux hasRoot [] cs else normCompsAux hasRoot [c] cs
      | a :: rest =>
        if a = ".." then normCompsAux hasRoot (c :: a :: rest) cs
        else normCompsAux hasRoot rest cs

/-- `posixpath.normpath`. -/
def normpath (p : String) : String :=
  if p = "" then "."
  else
    let initialSlashes : Nat :=
      if py_startswith p "//" && !py_startswith p "///" then 2
      else if py_startswith p "/" then 1
      else 0
    let comps := normCompsAux (initialSlashes > 0) [] (py_split p "/")
    let res := String.mk (List.replicate initialSlashes (Char.ofNat 47)) ++
      String.intercalate "/" comps
    if res = "" then "." else res

/-- Index of the last `/` in a char list, if any. -/
def lastSlashIdx (cs : List Char) : Option Nat :=
  (List.range cs.length).foldl
    (fun acc j => if cs.getD j ' ' = Char.ofNat 47 then some j else acc) none

/-- `posixpath.dirname`. -/
def pdirname (p : String) : String :=
  match lastSlashIdx p.toList with
  | none => ""
  | some i =>
    let head := p.toList.take (i + 1)
    if head.all (fun c => c = Char.ofNat 47) then String.mk head
    else String.mk ((head.reverse.dropWhile (fun c => c = Char.ofNat 47)).reverse)

/-- Is the character a single or double quote (the `[\'\"]` class of the
include pattern)? -/
def isQuote (c : Char) : Bool :=
  c = Char.ofNat 39 || c = Char.ofNat 34

/-- Greedy backtracking for `(.{4,})[\'\"]`: the largest index `j ≥ 4` in `r`
holding a quote character (so the capture `r.take j` has at least 4 chars). -/
def lastQuoteGe4 (r : List Char) : Option Nat :=
  (List.range r.length).foldl
    (fun acc j => if 4 ≤ j && isQuote (r.getD j ' ') then some j else acc) none

/-- `re.match(r"include [\'\"](.{4,})[\'\"]", include).group(1)`: the literal
`include ` prefix, one quote, then the greedy `.{4,}` capture up to the last
quote character on the line (`.` does not match a newline); `none` models the
`AttributeError` raised when the pattern does not match. -/
def parseIncludePath (line : String) : Option String :=
  let cs := line.toList
  if "include ".toList.isPrefixOf cs then
    match cs.drop 8 with
    | [] => none
    | q :: rest =>
      if isQuote q then
        let r := rest.takeWhile (fun c => c ≠ Char.ofNat 10)
        match lastQuoteGe4 r with
        | some j => some (String.mk (r.take j))
        | none => none
      else none
  else none

/-- Work items of the include resolver: `.inc` is one call of
`replace_include` on an `include` line; `.lines` is the
`for i, line in enumerate(lines)` loop over a file's lines (the same loop
shape `yara_update` uses on the top-level file). -/
inductive RTask
  | inc (dirname line : String)
  | lines (dirname : String) (ls : List String)

/-- One mutual step of `replace_include` and its line loop, structurally
recursive on `fuel` so that every run is kernel-computable; `none` is fuel
exhaustion (never reached with enough fuel, see the termination theorem).
`Except.error` models the `AttributeError` escaping when an `include` line
does not match the include pattern.  Faithful to the source: a missing target
contributes no lines; an existing target contributes the separator line
`"\n"`, plus — only when the path is not yet in `processed_files` — its own
lines with nested includes expanded, after adding the path to the set. -/
def rstep (fs : List (String × List String)) :
    Nat → List String → RTask → Option (Except String (List String × List String))
  | 0, _, _ => none
  | fuel + 1, processed_files, .inc dirname line =>
    match parseIncludePath line with
    | none => some (.error "AttributeError: include pattern did not match")
    | some include_path =>
      match fs.lookup (normpath (pjoin dirname include_path)) with
      | none => some (.ok ([], processed_files))
      | some file_lines =>
        if normpath (pjoin dirname include_path) ∈ processed_files then
          some (.ok (["\n"], processed_files))
        else
          match rstep fs fuel (normpath (pjoin dirname include_path) :: processed_files)
              (.lines (pdirname (normpath (pjoin dirname include_path))) file_lines) with
          | none => none
          | some (.error e) => some (.error e)
          | some (.ok (temp_lines, p)) => some (.ok ("\n" :: temp_lines, p))
  | _ + 1, processed_files, .lines _ [] => some (.ok ([], processed_files))
  | fuel + 1, processed_files, .lines dirname (l :: ls) =>
    if py_startswith l "include" then
      match rstep fs fuel processed_files (.inc dirname l) with
      | none => none
      | some (.error e) => some (.error e)
      | some (.ok (tl, p)) =>
        match rstep fs fuel p (.lines dirname ls) with
        | none => none
        | some (.error e) => some (.error e)
        | some (.ok (tl2, p2)) => some (.ok (tl ++ tl2, p2))
    else
      match rstep fs fuel processed_files (.lines dirname ls) with
      | none => none
      | some (.error e) => some (.error e)
      | some (.ok (tl2, p2)) => some (.ok (l :: tl2, p2))

/-- `replace_include(include, dirname, processed_files)` over the modelled
filesystem `fs`, with explicit fuel. -/
def replace_include (fs : List (String × List String)) (fuel : Nat)
    (processed_files : List String) (dirname line : String) :
    Option (Except String (List String × List String)) :=
  rstep fs fuel processed_files (.inc dirname line)

/-- Fuel bound: for every not-yet-processed file, its line count plus two
(one step to enter the file, one for the empty-list base of its line loop). -/
def includeBound (fs : List (String × List String)) (processed : List String) : Nat :=
  match fs with
  | [] => 0
  | e :: rest =>
    (if e.fst ∈ processed then 0 else e.snd.length + 2) + includeBound rest processed

/-- Fuel needed by one work item. -/
def taskCost (fs : List (String × List String)) (processed : List String) : RTask → Nat
  | .inc _ _ => includeBound fs processed + 1
  | .lines _ ls => includeBound fs processed + ls.length + 1

/-!
#### Hash gating and the validate/import loop of `yara_update`
-/

/-- One source's aggregated output as the hash-gating code sees it:
`cache_name = os.path.basename(file_name)`, its fresh content hash, and the
source's configured default classification. -/
structure SourceAgg where
  cache_name : String
  sha256 : String
  default_classification : String
deriving DecidableEq

/-- The `# Check if the file is the same as the last run` block, folded over
all sources: a file whose fresh hash equals `previous_hash.get(cache_name)` is
recorded in neither `files_sha256` nor `files_default_classification`;
otherwise both record it. -/
def hash_gate (previous_hash : List (String × String)) :
    List SourceAgg → List (String × String) × List (String × String)
  | [] => ([], [])
  | s :: rest =>
    if previous_hash.lookup s.cache_name = some s.sha256 then
      hash_gate previous_hash rest
    else
      ((s.cache_name, s.sha256) :: (hash_gate previous_hash rest).1,
       (s.cache_name, s.default_classification) :: (hash_gate previous_hash rest).2)

/-- The `for base_file in files_sha256` validate-and-import loop: exactly the
recorded file names are passed to the validator and then to
`yara_importer.import_file` (the Publisher boundary). -/
def validated_files (files_sha256 : List (String × String)) : List String :=
  files_sha256.map Prod.fst

/-!
#### `url_download` outcome model
-/

/-- The `requests` exceptions `url_download` distinguishes: `requests.Timeout`
has its own handler; every other exception (ConnectionError, ProxyError, ...)
falls into the generic `except Exception` handler. -/
inductive NetExc
  | timeout
  | connectionError
  | otherExc
deriving DecidableEq

/-- A GET response as far as `url_download` inspects it. -/
structure GetResp where
  status_not_modified : Bool
  ok : Bool
  content : String
deriving DecidableEq

/-- The network behaviour of one run of `url_download`: what `session.head`
and `session.get` return or raise. -/
structure HttpBehavior where
  head : Except NetExc (Option Nat)
  get : Except NetExc GetResp

/-- How one call of `url_download` ends. `skipped` is a plain return without a
file (source skipped for this run); `process_exit` is the `exit()` call in the
generic exception handler, which terminates the whole updater process. -/
inductive FetchOutcome
  | downloaded (file_name content : String)
  | skipped
  | process_exit
deriving DecidableEq

/-- `url_download` control flow (network and disk I/O abstracted into
`HttpBehavior`): skip when the resource is unmodified; on `requests.Timeout`
silently skip (`pass`); on any other exception log and `exit()`; a response
that is neither `not_modified` nor `ok` falls off the end (returns `None`). -/
def url_download (source_name : String) (previous_update : Option Nat)
    (http : HttpBehavior) : FetchOutcome :=
  match http.head with
  | .error .timeout => .skipped
  | .error _ => .process_exit
  | .ok last_modified =>
    match last_modified, previous_update with
    | some lm, some prev =>
      if lm ≤ prev then .skipped
      else url_download_get source_name http
    | _, _ => url_download_get source_name http
where
  url_download_get (source_name : String) (http : HttpBehavior) : FetchOutcome :=
    match http.get with
    | .error .timeout => .skipped
    | .error _ => .process_exit
    | .ok resp =>
      if resp.status_not_modified then .skipped
      else if resp.ok then .downloaded (source_name ++ ".yar") resp.content
      else .skipped

/-!
## Helper lemmas
-/

/-- The backward scan never returns an index above its starting point. -/
theorem findStartIdx_le (lines : List String) :
    ∀ k s, findStartIdx lines k = some s → s ≤ k := by
  intro k
  induction k with
  | zero =>
    intro s h
    unfold findStartIdx at h
    split at h
    · cases h; exact Nat.le_refl 0
    · cases h
  | succ k ih =>
    intro s h
    unfold findStartIdx at h
    split at h
    · cases h; exact Nat.le_refl _
    · exact Nat.le_succ_of_le (ih s h)

/-- If no line at or before index `k` matches the rule-start pattern, the
backward scan fails. -/
theorem findStartIdx_none (lines : List String) :
    ∀ k, (∀ i, i ≤ k → isRuleStart (lines.getD i "") = false) →
      findStartIdx lines k = none := by
  intro k
  induction k with
  | zero =>
    intro h
    unfold findStartIdx
    split
    · next hm => rw [h 0 (Nat.le_refl 0)] at hm; cases hm
    · rfl
  | succ k ih =>
    intro h
    unfold findStartIdx
    split
    · next hm => rw [h (k + 1) (Nat.le_refl _)] at hm; cases hm
    · exact ih (fun i hi => h i (Nat.le_succ_of_le hi))

/-- Starting the forward search at or beyond the end of the file finds
nothing. -/
theorem firstRuleStartFromAux_none (lines : List String) (left k : Nat)
    (h : lines.length ≤ k) : firstRuleStartFromAux lines left k = none := by
  cases left with
  | zero => rfl
  | succ left =>
    unfold firstRuleStartFromAux
    rw [if_neg (Nat.not_lt.mpr h)]

/-- What a successful forward search guarantees about the index it returns. -/
theorem firstRuleStartFromAux_some (lines : List String) :
    ∀ left k j, firstRuleStartFromAux lines left k = some j →
      k ≤ j ∧ j < lines.length ∧ isRuleStart (lines.getD j "") = true := by
  intro left
  induction left with
  | zero => intro k j h; cases h
  | succ left ih =>
    intro k j h
    unfold firstRuleStartFromAux at h
    split at h
    · next hk =>
      split at h
      · next hm => cases h; exact ⟨Nat.le_refl _, hk, hm⟩
      · have := ih (k + 1) j h
        exact ⟨Nat.le_of_succ_le this.1, this.2.1, this.2.2⟩
    · cases h

/-- The forward loop of `clean` stops exactly at the first rule start at or
after its starting index, truncated to the last line of the file when there
is none. -/
theorem findEndIdxAux_eq (lines : List String) :
    ∀ left k, findEndIdxAux lines left k =
      (firstRuleStartFromAux lines left k).getD (lines.length - 1) := by
  intro left
  induction left with
  | zero => intro k; rfl
  | succ left ih =>
    intro k
    unfold findEndIdxAux firstRuleStartFromAux
    by_cases hk : k + 1 < lines.length
    · rw [if_pos hk, if_pos (by omega : k < lines.length)]
      by_cases hm : isRuleStart (lines.getD k "") = true
      · rw [if_pos hm, if_pos hm]; rfl
      · rw [if_neg hm, if_neg hm, ih]
    · rw [if_neg hk]
      by_cases hk' : k < lines.length
      · rw [if_pos hk']
        by_cases hm : isRuleStart (lines.getD k "") = true
        · rw [if_pos hm]
          have : k = lines.length - 1 := by omega
          rw [this]; rfl
        · rw [if_neg hm, firstRuleStartFromAux_none lines left (k + 1) (by omega)]
          rfl
      · rw [if_neg hk']
        rfl

/-- `clean` on a duplicated-identifier error, characterised. -/
theorem clean_rename_eq (lines : List String) (eline : Nat) (msg nm : String)
    (h1 : 1 ≤ eline) (h2 : eline - 1 < lines.length) (hnm : nm ≠ "") :
    clean lines eline msg nm =
      .ok (lines.set (eline - 1)
            (py_replace (lines.getD (eline - 1) "") nm (nm ++ "_1")), nm) := by
  unfold clean
  rw [if_neg (by omega), if_pos hnm, if_pos h2]

/-- `clean` on a plain syntax error, characterised by its two scans. -/
theorem clean_removal_eq (lines : List String) (eline : Nat) (msg : String)
    (h1 : 1 ≤ eline) (h2 : eline - 1 < lines.length) :
    clean lines eline msg "" =
      (match findStartIdx lines (eline - 1) with
       | none =>
         .error ("Yara Validator failed to find invalid rule start. Yara Error: "
           ++ msg ++ " Line: " ++ Nat.repr eline)
       | some find_start =>
         match ruleNameSearch (lines.getD find_start "") with
         | none => .error "AttributeError"
         | some nm =>
           if findEndIdx lines (eline - 1) = lines.length - 1 then
             .ok (lines.take find_start, nm)
           else
             .ok (lines.take find_start ++ lines.drop (findEndIdx lines (eline - 1)), nm)) := by
  unfold clean
  rw [if_neg (by omega), if_neg (by simp), if_pos h2]

/-- `findEndIdx` as the declarative forward search. -/
theorem findEndIdx_eq (lines : List String) (k : Nat) :
    findEndIdx lines k = (firstRuleStartFrom lines k).getD (lines.length - 1) :=
  findEndIdxAux_eq lines (lines.length - k) k

/-- `amended_removal` when there is no rule start at or after the error line. -/
theorem amended_removal_none (lines : List String) (el s : Nat)
    (h : firstRuleStartFrom lines el = none) :
    amended_removal lines el s = lines.take s := by
  unfold amended_removal
  rw [h]

/-- `amended_removal` when the next rule start at or after the error line is
at index `j`. -/
theorem amended_removal_some (lines : List String) (el s j : Nat)
    (h : firstRuleStartFrom lines el = some j) :
    amended_removal lines el s =
      if j = lines.length - 1 then lines.take s
      else lines.take s ++ lines.drop j := by
  unfold amended_removal
  rw [h]

/-- A successful removal repair produces exactly `amended_removal` at the
index found by the backward scan. -/
theorem clean_removal_ok_cases (lines : List String) (eline : Nat) (msg : String)
    (out : List String) (rn : String)
    (h1 : 1 ≤ eline) (h2 : eline - 1 < lines.length)
    (hok : clean lines eline msg "" = .ok (out, rn)) :
    ∃ s, findStartIdx lines (eline - 1) = some s ∧
      ruleNameSearch (lines.getD s "") = some rn ∧
      out = amended_removal lines (eline - 1) s := by
  rw [clean_removal_eq lines eline msg h1 h2] at hok
  cases hst : findStartIdx lines (eline - 1) with
  | none => rw [hst] at hok; simp at hok
  | some s =>
    rw [hst] at hok
    cases hrn : ruleNameSearch (lines.getD s "") with
    | none => simp only [hrn] at hok; simp at hok
    | some nm2 =>
      simp only [hrn, findEndIdx_eq] at hok
      cases hf : firstRuleStartFrom lines (eline - 1) with
      | none =>
        simp only [hf, Option.getD_none, if_true, Except.ok.injEq,
          Prod.mk.injEq] at hok
        obtain ⟨ho, hn2⟩ := hok
        subst ho
        subst hn2
        exact ⟨s, rfl, hrn, (amended_removal_none lines _ s hf).symm⟩
      | some j =>
        simp only [hf, Option.getD_some] at hok
        by_cases hj : j = lines.length - 1
        · rw [if_pos hj] at hok
          simp only [Except.ok.injEq, Prod.mk.injEq] at hok
          obtain ⟨ho, hn2⟩ := hok
          subst ho
          subst hn2
          refine ⟨s, rfl, hrn, ?_⟩
          rw [amended_removal_some lines _ s j hf, if_pos hj]
        · rw [if_neg hj] at hok
          simp only [Except.ok.injEq, Prod.mk.injEq] at hok
          obtain ⟨ho, hn2⟩ := hok
          subst ho
          subst hn2
          refine ⟨s, rfl, hrn, ?_⟩
          rw [amended_removal_some lines _ s j hf, if_neg hj]

/-- The number of lines `amended_removal` keeps never exceeds the original. -/
theorem amended_removal_length_le (lines : List String) (el s : Nat)
    (hs : s ≤ el) (h2 : el < lines.length) :
    (amended_removal lines el s).length ≤ lines.length := by
  cases hf : firstRuleStartFrom lines el with
  | none =>
    rw [amended_removal_none lines el s hf]
    simp only [List.length_take]
    omega
  | some j =>
    have hj := firstRuleStartFromAux_some lines _ _ _ hf
    rw [amended_removal_some lines el s j hf]
    by_cases hje : j = lines.length - 1
    · rw [if_pos hje]
      simp only [List.length_take]
      omega
    · rw [if_neg hje]
      simp only [List.length_append, List.length_take, List.length_drop]
      omega

/-- When the error line itself is not a rule start, the removal repair
strictly shrinks the file. -/
theorem amended_removal_length_lt (lines : List String) (el s : Nat)
    (hs : s ≤ el) (h2 : el < lines.length)
    (hm : isRuleStart (lines.getD el "") = false) :
    (amended_removal lines el s).length < lines.length := by
  cases hf : firstRuleStartFrom lines el with
  | none =>
    rw [amended_removal_none lines el s hf]
    simp only [List.length_take]
    omega
  | some j =>
    have hj := firstRuleStartFromAux_some lines _ _ _ hf
    have hne : j ≠ el := by
      intro he
      have hmt := hj.2.2
      rw [he, hm] at hmt
      cases hmt
    have hlt : s < j := by omega
    rw [amended_removal_some lines el s j hf]
    by_cases hje : j = lines.length - 1
    · rw [if_pos hje]
      simp only [List.length_take]
      omega
    · rw [if_neg hje]
      simp only [List.length_append, List.length_take, List.length_drop]
      omega

/-- A backward scan started on a matching line stops there. -/
theorem findStartIdx_self (lines : List String) (k : Nat)
    (hm : isRuleStart (lines.getD k "") = true) :
    findStartIdx lines k = some k := by
  cases k with
  | zero => unfold findStartIdx; rw [if_pos hm]
  | succ k => unfold findStartIdx; rw [if_pos hm]

/-- A forward search started on a matching in-range line stops there. -/
theorem firstRuleStartFrom_self (lines : List String) (k : Nat)
    (h2 : k < lines.length) (hm : isRuleStart (lines.getD k "") = true) :
    firstRuleStartFrom lines k = some k := by
  unfold firstRuleStartFrom
  have hfuel : lines.length - k = (lines.length - k - 1) + 1 := by omega
  rw [hfuel]
  unfold firstRuleStartFromAux
  rw [if_pos h2, if_pos hm]

/-!
## Claim theorems
-/

/-- C1 (counterexample): both parts of the claim fail on the spec's own
concrete scenario file (three lines: `rule A`, `rule B` with bad syntax,
`rule C`).  The line `rule B \x7bbad syntax` itself matches the rule-start
pattern, so: with the error reported on line 1 or line 2, both scans stop at
the error line and the repair deletes zero lines — the file comes back
unchanged, and since `validate_rules` has no iteration bound it can never
converge to a file holding rule A and rule C; with the error reported on
line 3, the forward scan reaches the last line and the code truncates at
`f_lines[:2]`, deleting rule C and keeping broken rule B, whereas the claim's
exclusive `[start, end)` deletion (`claim_removal`, here `[2, 2)`) would
delete nothing.  So no reported error line produces the claimed file
containing exactly rule A and rule C. -/
theorem C1_counterexample :
    clean ["rule A \x7b condition: true \x7d\n", "rule B \x7bbad syntax\n",
        "rule C \x7b condition: true \x7d"] 1 "syntax error" ""
      = .ok (["rule A \x7b condition: true \x7d\n", "rule B \x7bbad syntax\n",
          "rule C \x7b condition: true \x7d"], "A") ∧
    clean ["rule A \x7b condition: true \x7d\n", "rule B \x7bbad syntax\n",
        "rule C \x7b condition: true \x7d"] 2 "syntax error" ""
      = .ok (["rule A \x7b condition: true \x7d\n", "rule B \x7bbad syntax\n",
          "rule C \x7b condition: true \x7d"], "B") ∧
    clean ["rule A \x7b condition: true \x7d\n", "rule B \x7bbad syntax\n",
        "rule C \x7b condition: true \x7d"] 3 "syntax error" ""
      = .ok (["rule A \x7b condition: true \x7d\n", "rule B \x7bbad syntax\n"],
          "C") ∧
    claim_removal ["rule A \x7b condition: true \x7d\n", "rule B \x7bbad syntax\n",
        "rule C \x7b condition: true \x7d"] 2 2
      = ["rule A \x7b condition: true \x7d\n", "rule B \x7bbad syntax\n",
         "rule C \x7b condition: true \x7d"] ∧
    (["rule A \x7b condition: true \x7d\n", "rule B \x7bbad syntax\n",
      "rule C \x7b condition: true \x7d"] : List String)
      ≠ ["rule A \x7b condition: true \x7d\n", "rule C \x7b condition: true \x7d"] ∧
    (["rule A \x7b condition: true \x7d\n", "rule B \x7bbad syntax\n"] : List String)
      ≠ ["rule A \x7b condition: true \x7d\n", "rule C \x7b condition: true \x7d"] :=
  ⟨rfl, rfl, rfl, rfl, by decide, by decide⟩

/-- C1 (amended): one removal repair step of `clean` deletes the lines
`[start, end)` where `start` is the nearest rule-declaration start at or
before the error line and `end` is the next rule-declaration start at or
after the error line (exclusive) — EXCEPT that when the forward scan reaches
the last line of the file (no later rule start, or the next rule start is the
last line itself) the deletion extends through end-of-file inclusive, deleting
that final line as well.  `amended_removal` is that description. -/
theorem C1_amended (lines : List String) (eline : Nat) (msg : String)
    (s : Nat) (nm : String)
    (h1 : 1 ≤ eline) (h2 : eline - 1 < lines.length)
    (hs : findStartIdx lines (eline - 1) = some s)
    (hn : ruleNameSearch (lines.getD s "") = some nm) :
    clean lines eline msg "" = .ok (amended_removal lines (eline - 1) s, nm) := by
  rw [clean_removal_eq lines eline msg h1 h2, hs]
  simp only [hn, findEndIdx_eq]
  cases hf : firstRuleStartFrom lines (eline - 1) with
  | none =>
    simp only [hf, Option.getD_none, if_true]
    rw [amended_removal_none lines _ s hf]
  | some j =>
    simp only [hf, Option.getD_some]
    rw [amended_removal_some lines _ s j hf]
    by_cases hj : j = lines.length - 1
    · rw [if_pos hj, if_pos hj]
    · rw [if_neg hj, if_neg hj]

/-- C1 (witness): the amended description evaluated on a file where the
deleted rule sits strictly between two others. -/
theorem C1_amended_witness :
    clean ["// c\n", "rule A \x7b\n", "bad\n", "rule B \x7b condition: true \x7d\n",
        "x\n"] 3 "m" ""
      = .ok (amended_removal ["// c\n", "rule A \x7b\n", "bad\n",
          "rule B \x7b condition: true \x7d\n", "x\n"] 2 1, "A") :=
  C1_amended ["// c\n", "rule A \x7b\n", "bad\n", "rule B \x7b condition: true \x7d\n",
    "x\n"] 3 "m" 1 "A" (by decide) (by decide) (by decide) (by decide)

/-- C2 (counterexample): a repair step that does not abort need not shrink
the file.  Here the error line itself matches the rule-start pattern and is
not the last line, so `find_start = find_end` and the repair deletes zero
lines: `clean` succeeds and returns the file unchanged.  Since
`validate_rules` has no iteration bound and re-compiles the identical file,
this also refutes guaranteed termination. -/
theorem C2_counterexample :
    clean ["rule A \x7b condition: true\n", "rule B \x7b condition: true \x7d\n",
        "rule C \x7b condition: true \x7d\n"] 2 "syntax error, unexpected identifier" ""
      = .ok (["rule A \x7b condition: true\n", "rule B \x7b condition: true \x7d\n",
          "rule C \x7b condition: true \x7d\n"], "B") := rfl

/-- C2 (amended): a rename repair preserves the number of lines.  A removal
repair never increases it; it strictly reduces it when the reported error
line does not itself match the rule-declaration start pattern, and also when
that (matching) error line is the last line of the file (the truncation
branch deletes it); but when the error line matches the pattern and is NOT
the last line, the repair deletes zero lines and returns the file unchanged —
and since `validate_rules` has no maximum-iteration bound, the loop then
revisits an identical file forever. -/
theorem C2_amended (lines : List String) (eline : Nat) (msg nm : String)
    (out : List String) (rn : String)
    (h1 : 1 ≤ eline) (h2 : eline - 1 < lines.length)
    (hok : clean lines eline msg nm = .ok (out, rn)) :
    (nm ≠ "" → out.length = lines.length) ∧
    (nm = "" → out.length ≤ lines.length) ∧
    (nm = "" → isRuleStart (lines.getD (eline - 1) "") = false →
      out.length < lines.length) ∧
    (nm = "" → isRuleStart (lines.getD (eline - 1) "") = true →
      eline - 1 = lines.length - 1 → out.length < lines.length) ∧
    (nm = "" → isRuleStart (lines.getD (eline - 1) "") = true →
      eline - 1 < lines.length - 1 → out = lines) := by
  refine ⟨?_, ?_, ?_, ?_, ?_⟩
  · intro hnm
    have hc := (clean_rename_eq lines eline msg nm h1 h2 hnm).symm.trans hok
    simp only [Except.ok.injEq, Prod.mk.injEq] at hc
    rw [← hc.1]
    simp
  · intro hnm
    subst hnm
    obtain ⟨s, hs, hn, ho⟩ := clean_removal_ok_cases lines eline msg out rn h1 h2 hok
    rw [ho]
    exact amended_removal_length_le lines _ s (findStartIdx_le lines _ s hs) h2
  · intro hnm hm
    subst hnm
    obtain ⟨s, hs, hn, ho⟩ := clean_removal_ok_cases lines eline msg out rn h1 h2 hok
    rw [ho]
    exact amended_removal_length_lt lines _ s (findStartIdx_le lines _ s hs) h2 hm
  · intro hnm hm hlast
    subst hnm
    obtain ⟨s, hs, hn, ho⟩ := clean_removal_ok_cases lines eline msg out rn h1 h2 hok
    have hsle := findStartIdx_le lines _ s hs
    rw [ho, amended_removal_some lines _ s (eline - 1)
      (firstRuleStartFrom_self lines (eline - 1) h2 hm), if_pos hlast]
    simp only [List.length_take]
    omega
  · intro hnm hm hnl
    subst hnm
    obtain ⟨s, hs, hn, ho⟩ := clean_removal_ok_cases lines eline msg out rn h1 h2 hok
    have hse : s = eline - 1 :=
      (Option.some.inj ((findStartIdx_self lines (eline - 1) hm).symm.trans hs)).symm
    rw [ho, amended_removal_some lines _ s (eline - 1)
      (firstRuleStartFrom_self lines (eline - 1) h2 hm), if_neg (by omega), hse]
    exact List.take_append_drop (eline - 1) lines

/-- C2 (witness): on the `rule A / bad / rule C` file the removal repair
strictly shrinks the file (to zero lines), and on a two-line file whose
second (last) line is the erroring rule start, the truncation branch also
strictly shrinks it. -/
theorem C2_amended_witness :
    ([] : List String).length <
      (["rule A \x7b condition: true \x7d\n", "bad\n",
        "rule C \x7b condition: true \x7d\n"] : List String).length ∧
    (["rule A \x7b condition: true\n"] : List String).length <
      (["rule A \x7b condition: true\n",
        "rule B \x7b condition: true \x7d\n"] : List String).length :=
  ⟨(C2_amended ["rule A \x7b condition: true \x7d\n", "bad\n",
        "rule C \x7b condition: true \x7d\n"] 2 "m" "" [] "A"
      (by decide) (by decide) rfl).2.2.1 rfl (by decide),
   (C2_amended ["rule A \x7b condition: true\n",
        "rule B \x7b condition: true \x7d\n"] 2 "m" ""
        ["rule A \x7b condition: true\n"] "B"
      (by decide) (by decide) rfl).2.2.2.1 rfl (by decide) (by decide)⟩

/-- C3 (counterexample): the rename repair uses Python `str.replace`, which
replaces EVERY occurrence of the identifier on the error line, not only the
first: on the line `rule dup : dup { ... }` both the name and the tag are
renamed, unlike the only-first-occurrence repair the claim describes. -/
theorem C3_counterexample :
    clean ["rule dup \x7b condition: true \x7d\n",
        "rule dup : dup \x7b condition: true \x7d\n"] 2
        "duplicated identifier \"dup\"" "dup"
      = .ok (["rule dup \x7b condition: true \x7d\n",
          "rule dup_1 : dup_1 \x7b condition: true \x7d\n"], "dup") ∧
    replace_first "rule dup : dup \x7b condition: true \x7d\n" "dup" "dup_1"
      = "rule dup_1 : dup \x7b condition: true \x7d\n" ∧
    ("rule dup_1 : dup_1 \x7b condition: true \x7d\n" : String)
      ≠ "rule dup_1 : dup \x7b condition: true \x7d\n" :=
  ⟨rfl, rfl, by decide⟩

/-- C3 (amended): the duplicated-identifier repair rewrites the error line
by replacing every occurrence of the offending identifier with the
`_1`-suffixed name; no line is deleted (the line count is preserved, so both
rules remain present) and the offending name is returned. -/
theorem C3_amended (lines : List String) (eline : Nat) (msg nm : String)
    (h1 : 1 ≤ eline) (h2 : eline - 1 < lines.length) (hnm : nm ≠ "") :
    clean lines eline msg nm =
      .ok (lines.set (eline - 1)
            (py_replace (lines.getD (eline - 1) "") nm (nm ++ "_1")), nm) ∧
    (lines.set (eline - 1)
        (py_replace (lines.getD (eline - 1) "") nm (nm ++ "_1"))).length
      = lines.length :=
  ⟨clean_rename_eq lines eline msg nm h1 h2 hnm, by simp⟩

/-- C3 (witness): the amended rename repair on the two-rule duplicate file. -/
theorem C3_amended_witness :
    clean ["rule dup \x7b condition: true \x7d\n",
        "rule dup : dup \x7b condition: true \x7d\n"] 2
        "duplicated identifier \"dup\"" "dup"
      = .ok ((["rule dup \x7b condition: true \x7d\n",
            "rule dup : dup \x7b condition: true \x7d\n"] : List String).set 1
          (py_replace "rule dup : dup \x7b condition: true \x7d\n" "dup" "dup_1"),
          "dup") ∧
    ((["rule dup \x7b condition: true \x7d\n",
        "rule dup : dup \x7b condition: true \x7d\n"] : List String).set 1
      (py_replace "rule dup : dup \x7b condition: true \x7d\n" "dup" "dup_1")).length
      = 2 :=
  C3_amended ["rule dup \x7b condition: true \x7d\n",
      "rule dup : dup \x7b condition: true \x7d\n"] 2
      "duplicated identifier \"dup\"" "dup" (by decide) (by decide) (by decide)

/-- C4: when no line at or before the error line matches the
rule-declaration start pattern, `clean` raises (the "failed to find invalid
rule start" exception), and because the exception fires before the
`open(rulefile, 'w')` write, the file contents on disk stay unchanged —
modelled here by the `Except.error` result, which carries no repaired file. -/
theorem C4_unrecoverable (lines : List String) (eline : Nat) (msg : String)
    (h1 : 1 ≤ eline) (h2 : eline - 1 < lines.length)
    (h : ∀ i, i ≤ eline - 1 → isRuleStart (lines.getD i "") = false) :
    clean lines eline msg "" =
      .error ("Yara Validator failed to find invalid rule start. Yara Error: "
        ++ msg ++ " Line: " ++ Nat.repr eline) := by
  rw [clean_removal_eq lines eline msg h1 h2, findStartIdx_none lines (eline - 1) h]

/-- C4 (witness): a syntax error on the first line of a file with no rule
declaration raises and leaves the file alone. -/
theorem C4_unrecoverable_witness :
    clean ["no rules here\n"] 1 "msg" "" =
      .error ("Yara Validator failed to find invalid rule start. Yara Error: "
        ++ "msg" ++ " Line: " ++ Nat.repr 1) :=
  C4_unrecoverable ["no rules here\n"] 1 "msg" (by decide) (by decide)
    (by decide)

/-- C5: a caught compile-boundary error whose message does not start with
`yara.SyntaxError` is re-raised unchanged by `validate_rules` — no line is
parsed out, `clean` is never called, and no repair happens. -/
theorem C5_reraise (lines : List String) (error : String)
    (h : py_startswith error "yara.SyntaxError" = false) :
    handle_error lines error = .error error := by
  unfold handle_error
  rw [h]
  simp

/-- C5 (witness): the paranoid-check failure shape is re-raised verbatim. -/
theorem C5_reraise_witness :
    handle_error ["rule A \x7b condition: true \x7d\n"]
        "YaraValidator has failed!--+--stderr--:--stdout"
      = .error "YaraValidator has failed!--+--stderr--:--stdout" :=
  C5_reraise ["rule A \x7b condition: true \x7d\n"]
    "YaraValidator has failed!--+--stderr--:--stdout" (by decide)

/-- C10: a duplicated-identifier repair modifies only the line at index
`eline - 1`: the line count is preserved, every other line is unchanged, and
`clean` returns the given rule name. -/
theorem C10_frame (lines : List String) (eline : Nat) (msg nm : String)
    (h1 : 1 ≤ eline) (h2 : eline - 1 < lines.length) (hnm : nm ≠ "") :
    ∃ out, clean lines eline msg nm = .ok (out, nm) ∧
      out.length = lines.length ∧
      ∀ i, i ≠ eline - 1 → out.getD i "" = lines.getD i "" := by
  refine ⟨_, clean_rename_eq lines eline msg nm h1 h2 hnm, by simp, ?_⟩
  intro i hi
  rw [List.getD_eq_getElem?_getD, List.getD_eq_getElem?_getD,
    List.getElem?_set_ne (by omega : eline - 1 ≠ i)]
  exact (List.getD_eq_getElem?_getD lines i "").symm

/-- C10 (witness): the frame property on the two-rule duplicate file. -/
theorem C10_frame_witness :
    ∃ out,
      clean ["rule dup \x7b condition: true \x7d\n",
          "rule dup : dup \x7b condition: true \x7d\n"] 2
          "duplicated identifier \"dup\"" "dup" = .ok (out, "dup") ∧
      out.length = (["rule dup \x7b condition: true \x7d\n",
          "rule dup : dup \x7b condition: true \x7d\n"] : List String).length ∧
      ∀ i, i ≠ 1 → out.getD i "" =
        (["rule dup \x7b condition: true \x7d\n",
          "rule dup : dup \x7b condition: true \x7d\n"] : List String).getD i "" :=
  C10_frame ["rule dup \x7b condition: true \x7d\n",
    "rule dup : dup \x7b condition: true \x7d\n"] 2
    "duplicated identifier \"dup\"" "dup" (by decide) (by decide) (by decide)

/-- If every source carrying a given file name hashes to its previously
recorded value, that file name never enters `files_sha256`, hence is never
validated or handed to the Publisher boundary. -/
theorem hash_gate_not_mem (prev : List (String × String)) (name : String) :
    ∀ srcs : List SourceAgg,
      (∀ t, t ∈ srcs → t.cache_name = name → prev.lookup name = some t.sha256) →
      name ∉ validated_files (hash_gate prev srcs).1 := by
  intro srcs
  induction srcs with
  | nil => intro _; simp [hash_gate, validated_files]
  | cons t rest ih =>
    intro h
    unfold hash_gate
    by_cases hc : prev.lookup t.cache_name = some t.sha256
    · rw [if_pos hc]
      exact ih (fun u hu => h u (List.mem_cons_of_mem t hu))
    · rw [if_neg hc]
      intro hmem
      simp only [validated_files, List.map_cons, List.mem_cons] at hmem
      cases hmem with
      | inl he =>
        apply hc
        rw [← he] at hc ⊢
        exact h t (List.mem_cons_self t rest) he.symm
      | inr hr =>
        exact ih (fun u hu => h u (List.mem_cons_of_mem t hu)) hr

/-- A source whose fresh hash differs from the recorded one is recorded in
both result maps (hash and default classification). -/
theorem hash_gate_mem_records (prev : List (String × String)) :
    ∀ (srcs : List SourceAgg) (s : SourceAgg), s ∈ srcs →
      prev.lookup s.cache_name ≠ some s.sha256 →
      (s.cache_name, s.sha256) ∈ (hash_gate prev srcs).1 ∧
      (s.cache_name, s.default_classification) ∈ (hash_gate prev srcs).2 := by
  intro srcs
  induction srcs with
  | nil => intro s hs; cases hs
  | cons t rest ih =>
    intro s hs hneq
    unfold hash_gate
    cases List.mem_cons.mp hs with
    | inl he =>
      subst he
      rw [if_neg hneq]
      exact ⟨List.mem_cons_self _ _, List.mem_cons_self _ _⟩
    | inr hr =>
      by_cases hc : prev.lookup t.cache_name = some t.sha256
      · rw [if_pos hc]
        exact ih s hr hneq
      · rw [if_neg hc]
        exact ⟨List.mem_cons_of_mem _ (ih s hr hneq).1,
               List.mem_cons_of_mem _ (ih s hr hneq).2⟩

/-- C7: a source whose freshly aggregated file hashes to the value recorded
under its name in `previous_hash` is excluded from `files_sha256`, so the
validate-and-import loop (which iterates exactly over `files_sha256`) never
validates it and never invokes the Publisher import boundary for it; a source
with a differing hash is recorded together with its default classification. -/
theorem C7_hash_gate (prev : List (String × String)) (srcs : List SourceAgg)
    (s : SourceAgg) (hs : s ∈ srcs) :
    (prev.lookup s.cache_name = some s.sha256 →
      (∀ t, t ∈ srcs → t.cache_name = s.cache_name →
        prev.lookup t.cache_name = some t.sha256) →
      s.cache_name ∉ validated_files (hash_gate prev srcs).1) ∧
    (prev.lookup s.cache_name ≠ some s.sha256 →
      (s.cache_name, s.sha256) ∈ (hash_gate prev srcs).1 ∧
      (s.cache_name, s.default_classification) ∈ (hash_gate prev srcs).2) := by
  constructor
  · intro _ hall
    refine hash_gate_not_mem prev s.cache_name srcs (fun t ht hname => ?_)
    rw [← hname]
    exact hall t ht hname
  · intro hneq
    exact hash_gate_mem_records prev srcs s hs hneq

/-- C7 (witness): the specification's own scenario — `previous_hash`
records `deadbeef` for `src.yar` and the fresh file hashes to `deadbeef`, so
the Publisher boundary is not invoked for `src.yar`. -/
theorem C7_hash_gate_witness :
    ("src.yar" : String) ∉ validated_files
      (hash_gate [("src.yar", "deadbeef")]
        [⟨"src.yar", "deadbeef", "TLP:CLEAR"⟩]).1 :=
  (C7_hash_gate [("src.yar", "deadbeef")] [⟨"src.yar", "deadbeef", "TLP:CLEAR"⟩]
      ⟨"src.yar", "deadbeef", "TLP:CLEAR"⟩ (by decide)).1 rfl
    (by
      intro t ht _
      rw [List.mem_singleton.mp ht]
      rfl)

/-- C8: the exception dispatch of `url_download`.  A `requests.Timeout` is
swallowed (`pass`) and the source is skipped, as the claim says — but any
other transient failure, e.g. a connection error, falls into the generic
`except Exception` handler which calls `exit()` and terminates the whole
updater process instead of skipping the source. -/
theorem C8_connection_error_exits :
    url_download "src" none ⟨.ok none, .error .connectionError⟩
      = .process_exit ∧
    url_download "src" none ⟨.ok none, .error .timeout⟩ = .skipped ∧
    FetchOutcome.process_exit ≠ FetchOutcome.skipped :=
  ⟨rfl, rfl, by decide⟩

/-- Searching a flattened category block: the first match inside one
category's keyword block yields that category, otherwise the search continues
in the tail of the table. -/
theorem spec_first_match_append (name cat : String) :
    ∀ (items : List String) (tail : List (String × String)),
      spec_first_match name (items.map (fun i => (i, cat)) ++ tail)
        = if items.any (fun i => strContains name i) then some cat
          else spec_first_match name tail := by
  intro items tail
  induction items with
  | nil => simp
  | cons i is ih =>
    cases hm : strContains name i with
    | true => simp [spec_first_match, hm]
    | false => simp [spec_first_match, hm, ih]

/-- The nested category/keyword loops of `guess_category` compute the
first-match search over the flattened keyword table. -/
theorem guessCatAux_eq (name : String) :
    ∀ cm : List (String × List String),
      guessCatAux name cm = spec_first_match name (flattenTable cm) := by
  intro cm
  induction cm with
  | nil => rfl
  | cons p rest ih =>
    obtain ⟨cat, items⟩ := p
    unfold guessCatAux flattenTable
    rw [spec_first_match_append name cat items (flattenTable rest), ih]

/-- C9: `guess_category` returns the category of the first keyword, in the
fixed table order technique/info/tool/exploit/malware, that is a substring of
the file name (and `none` when no keyword matches); when a category is
inferred, a `('category', cat)` metadata entry is APPENDED to every parsed
rule — the rule's existing metadata entries are kept unchanged in front of it,
so no explicit metadata value is overwritten — and when none is inferred the
signatures are left untouched. -/
theorem C9_category (fname : String) (sigs : List Sig) :
    guess_category fname = spec_guess_category fname ∧
    (∀ c, guess_category fname = some c →
      ∀ i, i < sigs.length →
        ((apply_guessed_category (guess_category fname) sigs).getD i
            ⟨"", none⟩).metadata
          = some ((sigs.getD i ⟨"", none⟩).metadata.getD []
              ++ [("category", c)])) ∧
    (guess_category fname = none →
      apply_guessed_category (guess_category fname) sigs = sigs) := by
  refine ⟨?_, ?_, ?_⟩
  · rw [guess_category, guessCatAux_eq]
    rfl
  · intro c hc i hi
    rw [hc]
    unfold apply_guessed_category
    rw [List.getD_eq_getElem?_getD, List.getElem?_map,
      List.getElem?_eq_getElem hi, List.getD_eq_getElem?_getD,
      List.getElem?_eq_getElem hi]
    rfl
  · intro h0
    rw [h0]
    rfl

/-- C9 (witness): `maldoc` is the first table keyword occurring in
`rules/maldoc_set.yar`, and the category entry is appended after existing
metadata. -/
theorem C9_category_witness :
    guess_category "rules/maldoc_set.yar"
      = spec_guess_category "rules/maldoc_set.yar" ∧
    ((apply_guessed_category (guess_category "rules/maldoc_set.yar")
        [⟨"r1", none⟩, ⟨"r2", some [("author", "x")]⟩]).getD 1
        ⟨"", none⟩).metadata
      = some ((([⟨"r1", none⟩, ⟨"r2", some [("author", "x")]⟩] : List Sig).getD 1
            ⟨"", none⟩).metadata.getD [] ++ [("category", "malware")]) :=
  ⟨(C9_category "rules/maldoc_set.yar" []).1,
   (C9_category "rules/maldoc_set.yar"
      [⟨"r1", none⟩, ⟨"r2", some [("author", "x")]⟩]).2.1 "malware"
     (by decide) 1 (by decide)⟩

/-- `includeBound` is antitone in the processed set. -/
theorem includeBound_mono (fs : List (String × List String)) (s t : List String)
    (h : ∀ x, x ∈ s → x ∈ t) : includeBound fs t ≤ includeBound fs s := by
  induction fs with
  | nil => exact Nat.le_refl _
  | cons e rest ih =>
    unfold includeBound
    by_cases he : e.fst ∈ t
    · rw [if_pos he]
      by_cases hes : e.fst ∈ s
      · rw [if_pos hes]; omega
      · rw [if_neg hes]; omega
    · rw [if_neg he]
      rw [if_neg (fun hx => he (h _ hx))]
      omega

/-- Marking a present, not-yet-processed file as processed lowers the bound
by at least that file's cost. -/
theorem includeBound_lookup (fs : List (String × List String)) (full : String)
    (ls : List String) (processed : List String)
    (hl : fs.lookup full = some ls) (hp : full ∉ processed) :
    includeBound fs (full :: processed) + ls.length + 2 ≤ includeBound fs processed := by
  induction fs with
  | nil => cases hl
  | cons e rest ih =>
    unfold includeBound
    by_cases he : e.fst = full
    · subst he
      simp only [List.lookup, beq_self_eq_true] at hl
      have hlen : e.snd.length = ls.length := by
        cases hl
        rfl
      rw [if_pos (List.mem_cons_self _ _), if_neg hp]
      have hmono := includeBound_mono rest processed (e.fst :: processed)
        (fun x hx => List.mem_cons_of_mem _ hx)
      omega
    · have hbe : (full == e.fst) = false :=
        beq_eq_false_iff_ne.mpr (fun hx => he hx.symm)
      simp only [List.lookup, hbe] at hl
      have := ih hl
      by_cases hep : e.fst ∈ processed
      · rw [if_pos hep, if_pos (List.mem_cons_of_mem _ hep)]
        omega
      · rw [if_neg hep, if_neg (fun hx => by
          cases List.mem_cons.mp hx with
          | inl hx1 => exact he hx1
          | inr hx2 => exact hep hx2)]
        omega

/-- The processed-file set only ever grows across one resolver step. -/
theorem rstep_mono (fs : List (String × List String)) :
    ∀ fuel processed task out p,
      rstep fs fuel processed task = some (.ok (out, p)) →
      ∀ x, x ∈ processed → x ∈ p := by
  intro fuel
  induction fuel with
  | zero => intro processed task out p h; cases h
  | succ fuel ih =>
    intro processed task out p h
    cases task with
    | inc dirname line =>
      unfold rstep at h
      cases hp : parseIncludePath line with
      | none => simp only [hp] at h; simp at h
      | some ip =>
        simp only [hp] at h
        cases hl : fs.lookup (normpath (pjoin dirname ip)) with
        | none =>
          simp only [hl] at h
          simp at h
          rw [← h.2]
          exact fun x hx => hx
        | some file_lines =>
          simp only [hl] at h
          by_cases hmem : normpath (pjoin dirname ip) ∈ processed
          · rw [if_pos hmem] at h
            simp at h
            rw [← h.2]
            exact fun x hx => hx
          · rw [if_neg hmem] at h
            cases hr : rstep fs fuel (normpath (pjoin dirname ip) :: processed)
                (.lines (pdirname (normpath (pjoin dirname ip))) file_lines) with
            | none => simp only [hr] at h; cases h
            | some r =>
              cases r with
              | error e => simp only [hr] at h; simp at h
              | ok pr =>
                obtain ⟨tl, p1⟩ := pr
                simp only [hr] at h
                simp at h
                intro x hx
                rw [← h.2]
                exact ih _ _ tl p1 hr x (List.mem_cons_of_mem _ hx)
    | lines dirname ls =>
      cases ls with
      | nil =>
        unfold rstep at h
        simp at h
        rw [← h.2]
        exact fun x hx => hx
      | cons l rest =>
        unfold rstep at h
        by_cases hst : py_startswith l "include" = true
        · rw [if_pos hst] at h
          cases h1 : rstep fs fuel processed (.inc dirname l) with
          | none => simp only [h1] at h; cases h
          | some r1 =>
            cases r1 with
            | error e => simp only [h1] at h; simp at h
            | ok pr1 =>
              obtain ⟨tl, p1⟩ := pr1
              simp only [h1] at h
              cases h2 : rstep fs fuel p1 (.lines dirname rest) with
              | none => simp only [h2] at h; cases h
              | some r2 =>
                cases r2 with
                | error e => simp only [h2] at h; simp at h
                | ok pr2 =>
                  obtain ⟨tl2, p2⟩ := pr2
                  simp only [h2] at h
                  simp at h
                  intro x hx
                  rw [← h.2]
                  exact ih p1 _ tl2 p2 h2 x (ih processed _ tl p1 h1 x hx)
        · rw [if_neg hst] at h
          cases h2 : rstep fs fuel processed (.lines dirname rest) with
          | none => simp only [h2] at h; cases h
          | some r2 =>
            cases r2 with
            | error e => simp only [h2] at h; simp at h
            | ok pr2 =>
              obtain ⟨tl2, p2⟩ := pr2
              simp only [h2] at h
              simp at h
              intro x hx
              rw [← h.2]
              exact ih processed _ tl2 p2 h2 x hx

/-- Fuel sufficiency: with at least `taskCost` fuel, the resolver never runs
out of fuel — i.e. `replace_include` terminates on every include graph,
cyclic ones included. -/
theorem rstep_total (fs : List (String × List String)) :
    ∀ fuel processed task, taskCost fs processed task ≤ fuel →
      (rstep fs fuel processed task).isSome = true := by
  intro fuel
  induction fuel with
  | zero =>
    intro processed task hc
    exfalso
    cases task <;> (simp only [taskCost] at hc; omega)
  | succ fuel ih =>
    intro processed task hc
    cases task with
    | inc dirname line =>
      unfold rstep
      cases hp : parseIncludePath line with
      | none => simp [hp]
      | some ip =>
        simp only [hp]
        cases hl : fs.lookup (normpath (pjoin dirname ip)) with
        | none => simp [hl]
        | some file_lines =>
          simp only [hl]
          by_cases hmem : normpath (pjoin dirname ip) ∈ processed
          · rw [if_pos hmem]
            rfl
          · rw [if_neg hmem]
            have hcost : taskCost fs (normpath (pjoin dirname ip) :: processed)
                (.lines (pdirname (normpath (pjoin dirname ip))) file_lines) ≤ fuel := by
              simp only [taskCost, List.length_cons] at hc ⊢
              have := includeBound_lookup fs (normpath (pjoin dirname ip))
                file_lines processed hl hmem
              omega
            have hs := ih _ _ hcost
            cases hr : rstep fs fuel (normpath (pjoin dirname ip) :: processed)
                (.lines (pdirname (normpath (pjoin dirname ip))) file_lines) with
            | none => rw [hr] at hs; cases hs
            | some r =>
              cases r with
              | error e => simp [hr]
              | ok pr =>
                obtain ⟨tl, p1⟩ := pr
                simp [hr]
    | lines dirname ls =>
      cases ls with
      | nil => rfl
      | cons l rest =>
        unfold rstep
        by_cases hst : py_startswith l "include" = true
        · rw [if_pos hst]
          have hc1 : taskCost fs processed (.inc dirname l) ≤ fuel := by
            simp only [taskCost, List.length_cons] at hc ⊢
            omega
          have hs1 := ih processed (.inc dirname l) hc1
          cases h1 : rstep fs fuel processed (.inc dirname l) with
          | none => rw [h1] at hs1; cases hs1
          | some r1 =>
            cases r1 with
            | error e => simp [h1]
            | ok pr1 =>
              obtain ⟨tl, p1⟩ := pr1
              have hsub := rstep_mono fs fuel processed (.inc dirname l) tl p1 h1
              have hc2 : taskCost fs p1 (.lines dirname rest) ≤ fuel := by
                simp only [taskCost, List.length_cons] at hc ⊢
                have := includeBound_mono fs processed p1 hsub
                omega
              have hs2 := ih p1 (.lines dirname rest) hc2
              cases h2 : rstep fs fuel p1 (.lines dirname rest) with
              | none => rw [h2] at hs2; cases hs2
              | some r2 =>
                cases r2 with
                | error e => simp [h1, h2]
                | ok pr2 =>
                  obtain ⟨tl2, p2⟩ := pr2
                  simp [h1, h2]
        · rw [if_neg hst]
          have hc2 : taskCost fs processed (.lines dirname rest) ≤ fuel := by
            simp only [taskCost, List.length_cons] at hc ⊢
            omega
          have hs2 := ih processed (.lines dirname rest) hc2
          cases h2 : rstep fs fuel processed (.lines dirname rest) with
          | none => rw [h2] at hs2; cases hs2
          | some r2 =>
            cases r2 with
            | error e => simp [h2]
            | ok pr2 =>
              obtain ⟨tl2, p2⟩ := pr2
              simp [h2]

/-- C6: include resolution over any modelled filesystem — self-includes and
include cycles allowed — terminates: with fuel at least `includeBound + 1`
(one unit per not-yet-processed file plus its line count, plus one) the
resolver returns a (finite) result rather than running out.  An include
directive whose target path is already in the processed set contributes only
the blank separator line and no file content; and after an existing target is
resolved once it is in the resulting processed set, so each file's content is
inlined at most once per top-level resolution. -/
theorem C6_replace_include (fs : List (String × List String)) (fuel : Nat)
    (processed : List String) (dirname line : String)
    (hfuel : includeBound fs processed + 1 ≤ fuel) :
    ((replace_include fs fuel processed dirname line).isSome = true) ∧
    (∀ ip, parseIncludePath line = some ip →
      ∀ ls, fs.lookup (normpath (pjoin dirname ip)) = some ls →
        normpath (pjoin dirname ip) ∈ processed →
        replace_include fs fuel processed dirname line
          = some (.ok (["\n"], processed))) ∧
    (∀ ip, parseIncludePath line = some ip →
      fs.lookup (normpath (pjoin dirname ip)) ≠ none →
      ∀ out p,
        replace_include fs fuel processed dirname line = some (.ok (out, p)) →
        normpath (pjoin dirname ip) ∈ p) := by
  refine ⟨?_, ?_, ?_⟩
  · exact rstep_total fs fuel processed (.inc dirname line)
      (by simp only [taskCost]; omega)
  · intro ip hip ls hl hmem
    cases fuel with
    | zero => exact absurd hfuel (by omega)
    | succ fuel =>
      unfold replace_include rstep
      simp only [hip, hl]
      rw [if_pos hmem]
  · intro ip hip hl out p hok
    cases fuel with
    | zero => cases hok
    | succ fuel =>
      unfold replace_include rstep at hok
      simp only [hip] at hok
      cases hlk : fs.lookup (normpath (pjoin dirname ip)) with
      | none => exact absurd hlk hl
      | some file_lines =>
        simp only [hlk] at hok
        by_cases hmem : normpath (pjoin dirname ip) ∈ processed
        · rw [if_pos hmem] at hok
          simp at hok
          rw [← hok.2]
          exact hmem
        · rw [if_neg hmem] at hok
          cases hr : rstep fs fuel (normpath (pjoin dirname ip) :: processed)
              (.lines (pdirname (normpath (pjoin dirname ip))) file_lines) with
          | none => simp only [hr] at hok; cases hok
          | some r =>
            cases r with
            | error e => simp only [hr] at hok; simp at hok
            | ok pr =>
              obtain ⟨tl, p1⟩ := pr
              simp only [hr] at hok
              simp at hok
              rw [← hok.2]
              exact rstep_mono fs fuel _ _ tl p1 hr (normpath (pjoin dirname ip))
                (List.mem_cons_self _ _)

/-- C6 (witness): two files that include each other; resolution of an
include of `a.yar` from their directory terminates within the fuel bound. -/
theorem C6_replace_include_witness :
    (replace_include
        [("/r/a.yar", ["include \"b.yar\"\n", "rule A \x7b condition: true \x7d\n"]),
         ("/r/b.yar", ["include \"a.yar\"\n", "rule B \x7b condition: true \x7d\n"])]
        9 [] "/r" "include \"a.yar\"\n").isSome = true :=
  (C6_replace_include
      [("/r/a.yar", ["include \"b.yar\"\n", "rule A \x7b condition: true \x7d\n"]),
       ("/r/b.yar", ["include \"a.yar\"\n", "rule B \x7b condition: true \x7d\n"])]
      9 [] "/r" "include \"a.yar\"\n" (by decide)).1
